import Mathlib

/-!
Verification development for the AMI `reduce` driver (`ami/reduce.py`).

Shallow embedding conventions:
* Python strings are Lean `String`s; Python 2 byte strings are assumed ASCII,
  so character counts and byte counts coincide.  String primitives
  (splitting, stripping, substring tests) are re-implemented structurally on
  character lists so that every definition evaluates inside the kernel.
* Python floats are modelled as exact decimals `PyFloat` (`num / 10 ^ exp`):
  the claims under study only concern success/failure of `float(...)` and
  order comparisons of parsed decimal literals, never IEEE rounding, and
  rounding to double is order-preserving on such literals.
* Fallible code returns `Option`/a result paired with `Option Err`; `none`
  (respectively `some e`) marks the exception paths of the Python code.
* The in-memory registry `self.files` (a `dict` of per-file records) is
  modelled as an association list in insertion order; Python 2 dict iteration
  order is unspecified, and is modelled here as insertion order.
-/

/-- The characters stripped by Python `str.strip()` with no argument. -/
def pySpaceChars : List Char := [' ', '\t', '\n', '\r', '\x0b', '\x0c']

/-- Strip characters satisfying `p` from both ends of a character list
(the Python `str.strip` family). -/
def stripEnds (p : Char → Bool) (cs : List Char) : List Char :=
  ((cs.dropWhile p).reverse.dropWhile p).reverse

/-- Python `s.strip()` (no argument: strips ASCII whitespace from both ends). -/
def pyStripWs (s : String) : String :=
  ⟨stripEnds (fun c => pySpaceChars.contains c) s.toList⟩

/-- Python `s.strip(c)` for a one-character argument: strips copies of `c`
from both ends only. -/
def pyStripChar (c : Char) (s : String) : String :=
  ⟨stripEnds (fun x => x == c) s.toList⟩

/-- Is `n` a contiguous sublist of the second argument?  Models the Python
substring test `n in h`. -/
def subList (n : List Char) : List Char → Bool
  | [] => n.isEmpty
  | c :: cs => n.isPrefixOf (c :: cs) || subList n cs

/-- Python `needle in hay` on strings (contiguous substring test). -/
def pyIn (needle hay : String) : Bool := subList needle.toList hay.toList

/-- Split a character list at every character satisfying `p`, keeping empty
fields (the splitting core of the Python `str.split(sep)` family).  Always
returns at least one (possibly empty) field. -/
def splitOnPred (p : Char → Bool) : List Char → List (List Char)
  | [] => [[]]
  | x :: xs =>
    if p x then [] :: splitOnPred p xs
    else
      match splitOnPred p xs with
      | [] => [[x]]
      | h :: t => (x :: h) :: t

/-- Python `s.split()` with no argument: split on whitespace, dropping empty
tokens. -/
def pyWsSplit (s : String) : List String :=
  ((splitOnPred (fun c => pySpaceChars.contains c) s.toList).filter
    (fun l => !l.isEmpty)).map (fun l => ⟨l⟩)

/-- Python `s.split(c)` for a one-character separator, on character lists. -/
def splitOnCharList (c : Char) : List Char → List (List Char) :=
  splitOnPred (fun x => x == c)

/-- Python `s.split(c)` for a one-character separator string. -/
def pySplitChar (c : Char) (s : String) : List String :=
  (splitOnCharList c s.toList).map (fun l => ⟨l⟩)

/-- Python `s.split(sep)` for a multi-character separator, on character
lists: scan left to right, breaking at every non-overlapping occurrence of
`sep`.  The `fuel` argument (instantiated with the input length) only makes
the recursion structural; each step consumes at least one character. -/
def splitOnSepFuel (sep : List Char) : Nat → List Char → List (List Char)
  | _, [] => [[]]
  | 0, cs => [cs]
  | fuel + 1, c :: cs =>
    if sep.isPrefixOf (c :: cs) then
      [] :: splitOnSepFuel sep fuel ((c :: cs).drop sep.length)
    else
      match splitOnSepFuel sep fuel cs with
      | [] => [[c]]
      | h :: t => (c :: h) :: t

/-- Python `s.split(sep)` for a non-empty separator string. -/
def pySplitSep (sep : String) (s : String) : List String :=
  (splitOnSepFuel sep.toList s.toList.length s.toList).map (fun l => ⟨l⟩)

/-- Locate the first occurrence of `c` and return the pieces before and
after it (used to model Python `s.split(sep, 1)`). -/
def splitFirstChar (c : Char) : List Char → Option (List Char × List Char)
  | [] => none
  | x :: xs =>
    if x == c then some ([], xs)
    else (splitFirstChar c xs).map (fun p => (x :: p.1, p.2))

/-- Python `s.split(' ', 1)`: split at the first space only; a string with no
space yields a one-element list. -/
def pySplit1Space (s : String) : List String :=
  match splitFirstChar ' ' s.toList with
  | none => [s]
  | some (a, b) => [⟨a⟩, ⟨b⟩]

/-- Decimal digits to a natural number. -/
def digitsToNat (cs : List Char) : ℕ :=
  cs.foldl (fun n c => 10 * n + (c.toNat - 48)) 0

/-- Ten to a natural power, as an integer (structural, kernel-computable). -/
def tenPow : Nat → Int
  | 0 => 1
  | n + 1 => 10 * tenPow n

/-- Exact decimal number `num / 10 ^ exp`: the shallow embedding of the
float values handled by the driver, all of which are parsed from decimal
literals.  Comparisons of such exact values agree with the Python float
comparisons the driver performs. -/
structure PyFloat where
  num : Int
  exp : Nat
deriving DecidableEq, Repr

/-- Order on exact decimals by cross-multiplication. -/
def PyFloat.lt (a b : PyFloat) : Bool :=
  decide (a.num * tenPow b.exp < b.num * tenPow a.exp)

/-- Model of Python `float(s)` on an already-stripped character list: optional
sign, integer digits, optional fractional part, optional decimal exponent.
`none` models the `ValueError` raised on any other input.  (The special
spellings `inf`/`nan` are not modelled; no claim involves them.) -/
def pyFloatParse (cs : List Char) : Option PyFloat :=
  let sgncs : Int × List Char :=
    match cs with
    | '-' :: rest => (-1, rest)
    | '+' :: rest => (1, rest)
    | _ => (1, cs)
  let ip := sgncs.2.takeWhile Char.isDigit
  let cs2 := sgncs.2.dropWhile Char.isDigit
  let fpcs : List Char × List Char :=
    match cs2 with
    | '.' :: rest => (rest.takeWhile Char.isDigit, rest.dropWhile Char.isDigit)
    | _ => ([], cs2)
  if ip.isEmpty && fpcs.1.isEmpty then none
  else
    let mant : PyFloat := ⟨sgncs.1 * (digitsToNat (ip ++ fpcs.1) : Int), fpcs.1.length⟩
    match fpcs.2 with
    | [] => some mant
    | e :: rest =>
      if e == 'e' || e == 'E' then
        let esgn : Bool × List Char :=
          match rest with
          | '-' :: r => (true, r)
          | '+' :: r => (false, r)
          | _ => (false, rest)
        let ed := esgn.2.takeWhile Char.isDigit
        let rest2 := esgn.2.dropWhile Char.isDigit
        if ed.isEmpty || !rest2.isEmpty then none
        else if esgn.1 then some ⟨mant.num, mant.exp + digitsToNat ed⟩
        else some ⟨mant.num * tenPow (digitsToNat ed), mant.exp⟩
      else none

/-- Model of Python `float(s)` (which strips surrounding whitespace first). -/
def pyFloat (s : String) : Option PyFloat := pyFloatParse (pyStripWs s).toList

/-- Errors of the driver.  `keyError` models a Python `KeyError` from a
registry lookup, `parseError` the `ValueError`s raised by the output parsers
(including `float` conversion failures), `protocolStall` a pexpect timeout
waiting for the `AMI-reduce>` prompt. -/
inductive Err
  | keyError
  | parseError
  | protocolStall
deriving DecidableEq, Repr

/-- One entry of `self.files`: `defaultdict(lambda : None)` holding every
fact learned about a dataset.  The field names follow the `Keys` constants
used by `reduce.py`; every field starts out as Python `None`. -/
structure FileRecord where
  comment : Option String := none
  pointing : Option (String × String) := none
  calibrator : Option String := none
  rain : Option PyFloat := none
  flagged_max : Option PyFloat := none
  flagged_final : Option PyFloat := none
  est_noise : Option PyFloat := none
  group_name : Option String := none
  target_uvfits : Option String := none
  cal_uvfits : Option String := none
deriving DecidableEq, Repr

/-- The registry `self.files`, as an association list in insertion order. -/
abbrev Registry := List (String × FileRecord)

/-- Lookup in an association list (first matching key wins, like a `dict`). -/
def assocLookup {κ α : Type} [DecidableEq κ] (k : κ) : List (κ × α) → Option α
  | [] => none
  | p :: rest => if p.1 = k then some p.2 else assocLookup k rest

/-- `dict.__setitem__`: replace the value at `k` if present, else append a
new entry (insertion order). -/
def assocSet {κ α : Type} [DecidableEq κ] (k : κ) (v : α) :
    List (κ × α) → List (κ × α)
  | [] => [(k, v)]
  | p :: rest => if p.1 = k then (p.1, v) :: rest else p :: assocSet k v rest

/-- Static method `Reduce._parse_calibrator`: scan for a line containing
`with calibrator` and return its last whitespace token; fall through to the
Python implicit `return None` (`none`) when no line matches. -/
def parse_calibrator : List String → Option String
  | [] => none
  | l :: ls =>
    if pyIn ("with calibrator") l then (pyWsSplit l).getLast?
    else parse_calibrator ls

/-- Static method `Reduce._parse_coords`: scan for a line containing
`Tracking`, drop the 14-character label, strip, drop the trailing 5-character
frame token, strip, and split on a two-space separator when a minus sign is
present (negative declination) and on a three-space separator otherwise.
`none` models the raise paths (`ValueError` when no `Tracking` line exists,
`IndexError` when the split yields fewer than two fields).  The `filename`
argument of the source only feeds log messages and is omitted; the non-fatal
J2000 warning is likewise omitted. -/
def parse_coords : List String → Option (String × String)
  | [] => none
  | l :: ls =>
    if pyIn ("Tracking") l then
      let s1 := pyStripWs ⟨l.toList.drop 14⟩
      let s2 := pyStripWs ⟨s1.toList.take (s1.toList.length - 5)⟩
      let parts := if pyIn ("-") s2 then pySplitSep ("  ") s2 else pySplitSep ("   ") s2
      match parts with
      | a :: b :: _ => some (a, b)
      | _ => none
    else parse_coords ls

/-- `Reduce._parse_rain_results`: scan for the `Mean amplitude correction
factor` line and convert its last whitespace token with `float`.  `none`
models both `ValueError` raise paths (marker absent, or `float` failure). -/
def parse_rain_results : List String → Option PyFloat
  | [] => none
  | l :: ls =>
    if pyIn ("Mean amplitude correction factor") l then
      match (pyWsSplit (pyStripWs l)).getLast? with
      | some t => pyFloat t
      | none => none
    else parse_rain_results ls

/-- Inner token scan of `Reduce._parse_flagging_results`: first token
containing a percent sign. -/
def findPercentTok : List String → Option String
  | [] => none
  | t :: ts => if pyIn ("%") t then some t else findPercentTok ts

/-- `Reduce._parse_flagging_results`: scan for a line containing both
`samples flagged` and `Total of`; return the first `%` token converted with
`float` after stripping `%`.  Encoding: outer `none` = exception raised by
`float`; `some none` = fell off the loop and returned Python `None`;
`some (some v)` = returned the percentage `v`.  A matching line with no `%`
token falls through to the next line, as in the source. -/
def parse_flagging_results : List String → Option (Option PyFloat)
  | [] => some none
  | l :: ls =>
    if pyIn ("samples flagged") l && pyIn ("Total of") l then
      match findPercentTok (pyWsSplit (pyStripWs l)) with
      | some t =>
        match pyFloat (pyStripChar '%' t) with
        | some v => some (some v)
        | none => none
      | none => parse_flagging_results ls
    else parse_flagging_results ls

/-- `Reduce._parse_reweight_results`: scan for the `estimated noise` line and
convert its second-to-last whitespace token with `float`.  `none` models the
raise paths (marker absent, short token list, or `float` failure). -/
def parse_reweight_results : List String → Option PyFloat
  | [] => none
  | l :: ls =>
    if pyIn ("estimated noise") l then
      match (pyWsSplit (pyStripWs l)).reverse.get? 1 with
      | some t => pyFloat t
      | none => none
    else parse_reweight_results ls

/-- Python 2 `<` on the mixed `None`/float values stored in `flagged_max`:
`None` compares below every number. -/
def py2lt : Option PyFloat → Option PyFloat → Bool
  | none, none => false
  | none, some _ => true
  | some _, none => false
  | some a, some b => PyFloat.lt a b

/-- Python 2 `max(a, b)`: returns `b` exactly when `b > a`, else `a`. -/
def py2max (a b : Option PyFloat) : Option PyFloat := if py2lt a b then b else a

/-- Non-strict companion order of `py2lt`. -/
def py2le (a b : Option PyFloat) : Bool := !py2lt b a

/-- Tail of `Reduce._parse_command_output` (the `flag` and `reweight` routes),
with the active record `rec` threaded through.  Python mutates the record in
place, so on a raise the registry reflects all writes made so far; this is
modelled by writing the current record back at every exit. -/
def parse_command_output_post (command : String) (outputLines : List String)
    (files : Registry) (af : String) (rec : FileRecord) : Registry × Option Err :=
  match (if pyIn ("flag") command then parse_flagging_results outputLines else some none) with
  | none => (assocSet af rec files, some Err.parseError)
  | some fl =>
    let rec2 := if pyIn ("flag") command then
        { rec with flagged_max := py2max fl rec.flagged_max } else rec
    if pyIn ("reweight") command then
      match parse_reweight_results outputLines with
      | none => (assocSet af rec2 files, some Err.parseError)
      | some v => (assocSet af { rec2 with est_noise := some v } files, none)
    else (assocSet af rec2 files, none)

/-- `Reduce._parse_command_output`: look up the active file record, then route
on substrings of the command text: `rain` to the rain parser (mandatory,
write `rain`), `flag` to the flagging parser (optional, accumulate
`flagged_max` by `max`), `reweight` to the noise parser (mandatory, write
`est_noise`).  A missing active record raises `KeyError` before any route is
tried. -/
def parse_command_output (command : String) (outputLines : List String)
    (files : Registry) (active : Option String) : Registry × Option Err :=
  match active with
  | none => (files, some Err.keyError)
  | some af =>
    match assocLookup af files with
    | none => (files, some Err.keyError)
    | some rec =>
      if pyIn ("rain") command then
        match parse_rain_results outputLines with
        | none => (files, some Err.parseError)
        | some v =>
          parse_command_output_post command outputLines files af
            { rec with rain := some v }
      else parse_command_output_post command outputLines files af rec

/-- Protocol state of the pexpect-driven session: `ready` means the prompt
was just matched. -/
inductive SessionState
  | ready
  | awaitingPrompt
  | stalled
deriving DecidableEq, Repr

/-- `Reduce.run_command`: send the command, block until the prompt reappears,
then parse the output block.  `response` is the behaviour of the spawned
process: `none` means the prompt never reappears (pexpect timeout, modelled
as `protocolStall`), `some lines` is `child.before` split on newlines.  The
returned `SessionState` is the session state at the moment the call returns
or raises; the prompt is awaited before any parsing occurs, so every parse
outcome leaves the session `ready`. -/
def run_command (command : String) (response : Option (List String))
    (files : Registry) (active : Option String) :
    SessionState × Registry × Option Err :=
  match response with
  | none => (SessionState.stalled, files, some Err.protocolStall)
  | some outputLines =>
    let fe := parse_command_output command outputLines files active
    (SessionState.ready, fe.1, fe.2)

/-- Python `l[2:-4]` on line lists (the fixed header/footer skip of the
`list files` output in `Reduce.update_files`). -/
def pySlice2Neg4 {α : Type} (l : List α) : List α :=
  (l.take (l.length - 4)).drop 2

/-- Per-line column extraction of `Reduce.update_files`:
`l.strip` of a carriage return, then of spaces, then split at the first
space. -/
def extract_cols (l : String) : List String :=
  pySplit1Space (pyStripChar ' ' (pyStripChar '\r' l))

/-- Body of the `list files` loop: register the first column as a new dataset
if unknown. -/
def files_step (fs : Registry) (l : String) : Registry :=
  let fname := (extract_cols l).headD ""
  match assocLookup fname fs with
  | some _ => fs
  | none => fs ++ [(fname, {})]

/-- Body of the `list comment` loop: attach the remainder as a comment to an
already-known dataset (unknown names are skipped, lines with no second
column are skipped). -/
def comment_step (fs : Registry) (l : String) : Registry :=
  let cols := extract_cols l
  let fname := cols.headD ""
  match assocLookup fname fs with
  | some rec =>
    if 1 < cols.length then assocSet fname { rec with comment := cols.get? 1 } fs
    else fs
  | none => fs

/-- First half of `Reduce.update_files`: process `list files` output,
skipping the 2 header lines and the 4 footer lines. -/
def update_files_list_phase (lines : List String) (files : Registry) : Registry :=
  (pySlice2Neg4 lines).foldl files_step files

/-- Second half of `Reduce.update_files`: process `list comment` output,
skipping only the 2 header lines (no footer skip). -/
def update_files_comment_phase (lines : List String) (files : Registry) : Registry :=
  (lines.drop 2).foldl comment_step files

/-- `Reduce.update_files`: both phases, on the newline-split output blocks of
`list files` and `list comment`. -/
def update_files (fileLines commentLines : List String) (files : Registry) :
    Registry :=
  update_files_comment_phase commentLines (update_files_list_phase fileLines files)

/-- `Reduce.get_obs_details`: look up the record of `filename` (a plain
`dict` lookup — `KeyError` if absent, no entry is created), then parse the
pointing (mandatory) and the calibrator (optional) from the response lines
after the 2-line header.  The record lookup happens before either write; a
coords `ValueError` leaves the registry untouched. -/
def get_obs_details (filename : String) (responseLines : List String)
    (files : Registry) : Registry × Option Err :=
  let obs_lines := responseLines.drop 2
  match assocLookup filename files with
  | none => (files, some Err.keyError)
  | some info =>
    match parse_coords obs_lines with
    | none => (files, some Err.parseError)
    | some pt =>
      (assocSet filename
        { info with pointing := some pt, calibrator := parse_calibrator obs_lines }
        files, none)

/-- A pointing as stored by the driver: the `SimpleCoords` pair of
right-ascension and declination strings. -/
abbrev Pointing := String × String

/-- `defaultdict(list)` append: `group_pointings[fp].append(f)` — append to
the list at key `fp`, creating the key at the end if absent. -/
def addToKey (fp : Pointing) (f : String) :
    List (Pointing × List String) → List (Pointing × List String)
  | [] => [(fp, [f])]
  | g :: gs => if g.1 = fp then (g.1, g.2 ++ [f]) :: gs else g :: addToKey fp f gs

/-- One iteration of the assignment loop of `Reduce.group_pointings` for the
dataset `f` with pointing `fp`.  `sep` is the external angular-separation
collaborator (`(p0 - p1).degrees` on `FK5Coordinates`), `tol` the tolerance
in degrees.  The source has no `break` in its inner loop: every existing
representative whose separation is below tolerance receives `f`; only when
none matches does `fp` become a new representative. -/
def assign_file (sep : Pointing → Pointing → PyFloat) (tol : PyFloat)
    (groups : List (Pointing × List String)) (f : String) (fp : Pointing) :
    List (Pointing × List String) :=
  let matched := groups.any (fun g => PyFloat.lt (sep g.1 fp) tol)
  let groups2 := groups.map
    (fun g => if PyFloat.lt (sep g.1 fp) tol then (g.1, g.2 ++ [f]) else g)
  if matched then groups2 else addToKey fp f groups

/-- The assignment loop of `Reduce.group_pointings` over all datasets, in
registry iteration order (modelled as list order). -/
def group_pointings_assign (sep : Pointing → Pointing → PyFloat) (tol : PyFloat)
    (fileList : List (String × Pointing)) : List (Pointing × List String) :=
  fileList.foldl (fun gs p => assign_file sep tol gs p.1 p.2) []

/-- Source-side insertion sort on strings, modelling Python `sorted` on a
list of byte strings.  Comparison is lexicographic on the character lists
(identical to Python byte order for ASCII identifiers); only the head of the
result is consumed by the naming step, so stability is irrelevant. -/
def insertSorted (x : String) : List String → List String
  | [] => [x]
  | y :: ys => if y.toList < x.toList then y :: insertSorted x ys else x :: y :: ys

/-- Python `sorted(l)` for string lists. -/
def pySorted (l : List String) : List String := l.foldr insertSorted []

/-- The naming step of `Reduce.group_pointings`:
`sorted(files)[0].split('-')[0]`. -/
def group_name_of (files : List String) : String :=
  (pySplitChar '-' ((pySorted files).headD "")).headD ""

/-- Lexicographic minimum of two strings (spec-side helper). -/
def strMin (a b : String) : String := if b.toList < a.toList then b else a

/-- Spec-side: "the lexicographically first member identifier". -/
def listMinStr : List String → String
  | [] => ""
  | x :: xs => xs.foldl strMin x

/-- Spec-side: "truncated at the first minus character". -/
def truncAtDash (s : String) : String :=
  ⟨s.toList.takeWhile (fun c => !(c == '-'))⟩

/-- One value of `named_groups`: member files plus the representative
pointing. -/
structure GroupInfo where
  files : List String
  pointing : Pointing
deriving DecidableEq, Repr

/-- The renaming loop of `Reduce.group_pointings`: build `named_groups` from
the pointing-keyed groups, in iteration order.  A name collision silently
overwrites the earlier entry (`named_groups[name] = {...}`). -/
def build_named_groups (gps : List (Pointing × List String)) :
    List (String × GroupInfo) :=
  gps.foldl (fun acc pg => assocSet (group_name_of pg.2) ⟨pg.2, pg.1⟩ acc) []

/-- Inner write-back loop of `Reduce.group_pointings` for one named group:
`self.files[f][Keys.group_name] = grpname` for each member `f`.  A member
missing from the registry raises `KeyError`. -/
def write_group_files (gname : String) (fs : List String) (files : Registry) :
    Registry × Option Err :=
  match fs with
  | [] => (files, none)
  | f :: rest =>
    match assocLookup f files with
    | none => (files, some Err.keyError)
    | some rec =>
      write_group_files gname rest
        (assocSet f { rec with group_name := some gname } files)

/-- Outer write-back loop of `Reduce.group_pointings` over all named
groups. -/
def write_group_names (ng : List (String × GroupInfo)) (files : Registry) :
    Registry × Option Err :=
  match ng with
  | [] => (files, none)
  | g :: rest =>
    match write_group_files g.1 g.2.files files with
    | (files2, none) => write_group_names rest files2
    | (files2, some e) => (files2, some e)

/-- Concrete coordinate valuation used for counterexamples: pointings are
placed on a line by their right-ascension label. -/
def exCoordVal (p : Pointing) : PyFloat :=
  if p.1 = "A" then ⟨0, 1⟩ else if p.1 = "B" then ⟨8, 1⟩ else ⟨4, 1⟩

/-- Concrete angular-separation instance for counterexamples. -/
def exSep (p q : Pointing) : PyFloat :=
  ⟨(((exCoordVal p).num * tenPow (exCoordVal q).exp -
      (exCoordVal q).num * tenPow (exCoordVal p).exp).natAbs : Int),
    (exCoordVal p).exp + (exCoordVal q).exp⟩

/-! ### Association-list lemmas -/

theorem assocLookup_assocSet_self {κ α : Type} [DecidableEq κ] (k : κ) (v : α)
    (m : List (κ × α)) : assocLookup k (assocSet k v m) = some v := by
  induction m with
  | nil => simp [assocSet, assocLookup]
  | cons p rest ih =>
    by_cases h : p.1 = k
    · simp [assocSet, assocLookup, h]
    · simp [assocSet, assocLookup, h, ih]

theorem assocLookup_assocSet_ne {κ α : Type} [DecidableEq κ] {k k' : κ} (v : α)
    (m : List (κ × α)) (h : k' ≠ k) :
    assocLookup k' (assocSet k v m) = assocLookup k' m := by
  induction m with
  | nil =>
    simp only [assocSet, assocLookup]
    rw [if_neg (fun e => h e.symm)]
  | cons p rest ih =>
    by_cases hp : p.1 = k
    · have hpk : p.1 ≠ k' := fun e => h (e.symm.trans hp)
      simp only [assocSet, if_pos hp, assocLookup, if_neg hpk]
    · simp only [assocSet, if_neg hp, assocLookup, ih]

theorem assocSet_eq_self_of_lookup {κ α : Type} [DecidableEq κ] {k : κ} {v : α}
    {m : List (κ × α)} (h : assocLookup k m = some v) : assocSet k v m = m := by
  induction m with
  | nil => simp [assocLookup] at h
  | cons p rest ih =>
    by_cases hp : p.1 = k
    · simp only [assocLookup, if_pos hp] at h
      obtain rfl : p.2 = v := Option.some_injective _ h
      simp only [assocSet, if_pos hp, Prod.mk.eta]
    · simp only [assocLookup, if_neg hp] at h
      simp only [assocSet, if_neg hp, ih h]

theorem map_fst_assocSet_of_lookup {κ α : Type} [DecidableEq κ] {k : κ} {w : α}
    {m : List (κ × α)} (v : α) (h : assocLookup k m = some w) :
    (assocSet k v m).map Prod.fst = m.map Prod.fst := by
  induction m with
  | nil => simp [assocLookup] at h
  | cons p rest ih =>
    by_cases hp : p.1 = k
    · simp only [assocSet, if_pos hp, List.map_cons]
    · simp only [assocLookup, if_neg hp] at h
      simp only [assocSet, if_neg hp, List.map_cons, ih h]

theorem assocLookup_eq_none_iff {κ α : Type} [DecidableEq κ] (k : κ)
    (m : List (κ × α)) : assocLookup k m = none ↔ k ∉ m.map Prod.fst := by
  induction m with
  | nil => simp [assocLookup]
  | cons p rest ih =>
    by_cases hp : p.1 = k
    · simp [assocLookup, hp]
    · have hk : k ≠ p.1 := fun e => hp e.symm
      simp [assocLookup, hp, ih, hk]

theorem assocLookup_append_of_none {κ α : Type} [DecidableEq κ] {k : κ}
    {m1 : List (κ × α)} (m2 : List (κ × α)) (h : assocLookup k m1 = none) :
    assocLookup k (m1 ++ m2) = assocLookup k m2 := by
  induction m1 with
  | nil => rfl
  | cons p rest ih =>
    by_cases hp : p.1 = k
    · simp [assocLookup, hp] at h
    · simp only [assocLookup, if_neg hp] at h
      simp only [List.cons_append, assocLookup, if_neg hp]
      exact ih h

/-! ### Python 2 ordering lemmas -/

theorem py2lt_irrefl (a : Option PyFloat) : py2lt a a = false := by
  cases a with
  | none => rfl
  | some x => simp [py2lt, PyFloat.lt]

theorem py2le_refl (a : Option PyFloat) : py2le a a = true := by
  unfold py2le
  rw [py2lt_irrefl]
  rfl

theorem py2le_py2max_right (a b : Option PyFloat) : py2le b (py2max a b) = true := by
  unfold py2max
  by_cases h : py2lt a b = true
  · rw [if_pos h]
    exact py2le_refl b
  · rw [if_neg h]
    unfold py2le
    rw [Bool.eq_false_iff.mpr h]
    rfl

theorem py2max_none_left (b : Option PyFloat) : py2max none b = b := by
  cases b <;> rfl

/-! ### Dispatcher characterization -/

theorem parse_command_output_post_spec (command : String)
    (outputLines : List String) (files : Registry) (af : String) (r : FileRecord) :
    ∃ r2 : FileRecord,
      (parse_command_output_post command outputLines files af r).1 = assocSet af r2 files ∧
      (r2.flagged_max = r.flagged_max ∨
        ∃ fl, r2.flagged_max = py2max fl r.flagged_max) := by
  by_cases hf : pyIn ("flag") command = true
  · simp only [parse_command_output_post, if_pos hf]
    cases parse_flagging_results outputLines with
    | none => exact ⟨r, rfl, Or.inl rfl⟩
    | some fl =>
      by_cases hw : pyIn ("reweight") command = true
      · simp only [if_pos hw]
        cases parse_reweight_results outputLines with
        | none => exact ⟨_, rfl, Or.inr ⟨fl, rfl⟩⟩
        | some v => exact ⟨_, rfl, Or.inr ⟨fl, rfl⟩⟩
      · simp only [if_neg hw]
        exact ⟨_, rfl, Or.inr ⟨fl, rfl⟩⟩
  · simp only [parse_command_output_post, if_neg hf]
    by_cases hw : pyIn ("reweight") command = true
    · simp only [if_pos hw]
      cases parse_reweight_results outputLines with
      | none => exact ⟨_, rfl, Or.inl rfl⟩
      | some v => exact ⟨_, rfl, Or.inl rfl⟩
    · simp only [if_neg hw]
      exact ⟨_, rfl, Or.inl rfl⟩

theorem parse_command_output_spec (command : String) (outputLines : List String)
    (files : Registry) (af : String) (rec : FileRecord)
    (h : assocLookup af files = some rec) :
    (parse_command_output command outputLines files (some af)).1 = files ∨
    ∃ r2 : FileRecord,
      (parse_command_output command outputLines files (some af)).1 = assocSet af r2 files ∧
      (r2.flagged_max = rec.flagged_max ∨
        ∃ fl, r2.flagged_max = py2max fl rec.flagged_max) := by
  by_cases hr : pyIn ("rain") command = true
  · simp only [parse_command_output, h, if_pos hr]
    cases parse_rain_results outputLines with
    | none => exact Or.inl rfl
    | some v =>
      exact Or.inr (parse_command_output_post_spec command outputLines files af _)
  · simp only [parse_command_output, h, if_neg hr]
    exact Or.inr (parse_command_output_post_spec command outputLines files af rec)

/-! ### Claims -/

/-- C2: for every dataset and every update produced by a dispatched command,
the stored `flagged_max` value is monotonically non-decreasing: whatever the
command routes to (including the `flag` route, which stores
`max(parsed, stored)` with Python 2 `None`-below-numbers ordering), the
record after the update is `py2le`-above the record before it. -/
theorem C2_flagged_max_monotone (command : String) (outputLines : List String)
    (files : Registry) (af : String) (rec rec' : FileRecord)
    (h : assocLookup af files = some rec)
    (h' : assocLookup af (parse_command_output command outputLines files (some af)).1 =
      some rec') :
    py2le rec.flagged_max rec'.flagged_max = true := by
  rcases parse_command_output_spec command outputLines files af rec h with
    hcase | ⟨r2, heq, hfm⟩
  · rw [hcase, h] at h'
    obtain rfl : rec = rec' := Option.some_injective _ h'
    exact py2le_refl _
  · rw [heq, assocLookup_assocSet_self] at h'
    obtain rfl : r2 = rec' := Option.some_injective _ h'
    rcases hfm with he | ⟨fl, he⟩
    · rw [he]
      exact py2le_refl _
    · rw [he]
      exact py2le_py2max_right _ _

/-- C2 witness: a concrete `flag`-routed update raising `flagged_max` from
`None` to 50 percent. -/
theorem C2_witness :
    py2le (({} : FileRecord)).flagged_max
      (({ flagged_max := some ⟨500, 1⟩ } : FileRecord)).flagged_max = true :=
  C2_flagged_max_monotone ("flag") (["Total of 128 samples flagged 50.0%"])
    ([(("a"), {})]) ("a") {} { flagged_max := some ⟨500, 1⟩ } (by decide) (by decide)

/-- C3: a command containing none of the dispatcher substrings `rain`,
`flag`, `reweight` leaves the registry unchanged and raises no error,
provided the active dataset has a record (the lookup preceding the routing
is shared by all commands). -/
theorem C3_unmatched_command_noop (command : String) (outputLines : List String)
    (files : Registry) (af : String) (rec : FileRecord)
    (h : assocLookup af files = some rec)
    (hrain : pyIn ("rain") command = false)
    (hflag : pyIn ("flag") command = false)
    (hrew : pyIn ("reweight") command = false) :
    parse_command_output command outputLines files (some af) = (files, none) := by
  have hrain' : ¬ pyIn ("rain") command = true := by rw [hrain]; exact Bool.false_ne_true
  have hflag' : ¬ pyIn ("flag") command = true := by rw [hflag]; exact Bool.false_ne_true
  have hrew' : ¬ pyIn ("reweight") command = true := by rw [hrew]; exact Bool.false_ne_true
  simp only [parse_command_output, h, if_neg hrain']
  simp only [parse_command_output_post, if_neg hflag', if_neg hrew']
  rw [assocSet_eq_self_of_lookup h]

/-- C3 witness: the command `show status` matches no route and is a no-op
on a one-entry registry. -/
theorem C3_witness :
    parse_command_output ("show status") (["anything"]) ([(("a"), {})]) (some ("a")) =
      ([(("a"), {})], none) :=
  C3_unmatched_command_noop ("show status") (["anything"]) ([(("a"), {})]) ("a") {}
    (by decide) (by decide) (by decide) (by decide)

/-- C4: whenever the prompt reappears (`response = some lines`), the session
is back in the `ready` state at the moment `run_command` returns or raises —
on the success path and on every parse-failure path alike, because the
prompt is awaited before any parsing; the only non-`ready` outcome is the
prompt never reappearing, which is the fatal `protocolStall`. -/
theorem C4_session_ready (command : String) (response : Option (List String))
    (files : Registry) (active : Option String) :
    (run_command command response files active).1 = SessionState.ready ∨
    ((run_command command response files active).1 = SessionState.stalled ∧
      response = none ∧
      (run_command command response files active).2.2 = some Err.protocolStall) := by
  cases response with
  | none => exact Or.inr ⟨rfl, rfl, rfl⟩
  | some lines => exact Or.inl rfl

/-- C10, part 1 helper: when no output line contains both flagging markers,
the flagging parser falls through and returns Python `None`. -/
theorem parse_flagging_results_absent (outputLines : List String)
    (hnone : ∀ l ∈ outputLines,
      (pyIn ("samples flagged") l && pyIn ("Total of") l) = false) :
    parse_flagging_results outputLines = some none := by
  induction outputLines with
  | nil => rfl
  | cons l ls ih =>
    have hl := hnone l (List.mem_cons_self l ls)
    have hls := fun l' hl' => hnone l' (List.mem_cons_of_mem l hl')
    have hl' : ¬ (pyIn ("samples flagged") l && pyIn ("Total of") l) = true := by
      rw [hl]; exact Bool.false_ne_true
    simp only [parse_flagging_results, if_neg hl']
    exact ih hls

/-- C10: when a `flag`-routed command's output has no line containing both
`samples flagged` and `Total of`, the flagging parser returns the absent
value, and the stored `flagged_max` is left unchanged — whether it was
previously absent or a number — so the whole registry is unchanged and no
error is raised. -/
theorem C10_flag_absent_noop (outputLines : List String)
    (hnone : ∀ l ∈ outputLines,
      (pyIn ("samples flagged") l && pyIn ("Total of") l) = false) :
    parse_flagging_results outputLines = some none ∧
    (∀ st : Option PyFloat, py2max none st = st) ∧
    ∀ (command : String) (files : Registry) (af : String) (rec : FileRecord),
      pyIn ("rain") command = false → pyIn ("flag") command = true →
      pyIn ("reweight") command = false →
      assocLookup af files = some rec →
      parse_command_output command outputLines files (some af) = (files, none) := by
  refine ⟨parse_flagging_results_absent outputLines hnone, py2max_none_left, ?_⟩
  intro command files af rec hrain hflag hrew h
  have hrain' : ¬ pyIn ("rain") command = true := by rw [hrain]; exact Bool.false_ne_true
  have hrew' : ¬ pyIn ("reweight") command = true := by rw [hrew]; exact Bool.false_ne_true
  simp only [parse_command_output, h, if_neg hrain']
  simp only [parse_command_output_post, if_pos hflag,
    parse_flagging_results_absent outputLines hnone, if_neg hrew']
  rw [py2max_none_left]
  rw [assocSet_eq_self_of_lookup h]

/-- C10 witness: a flagging command whose output reports nothing leaves a
registry with a previously stored percentage unchanged. -/
theorem C10_witness :
    parse_flagging_results (["no summary here"]) = some none ∧
    parse_command_output ("flag data") (["no summary here"])
        ([(("a"), { flagged_max := some ⟨25, 0⟩ })]) (some ("a")) =
      ([(("a"), { flagged_max := some ⟨25, 0⟩ })], none) := by
  have h := C10_flag_absent_noop (["no summary here"]) (by decide)
  exact ⟨h.1, h.2.2 ("flag data") ([(("a"), { flagged_max := some ⟨25, 0⟩ })]) ("a")
    { flagged_max := some ⟨25, 0⟩ } (by decide) (by decide) (by decide) (by decide)⟩

/-- C5 (amended): the mandatory-fact parsers (rain, noise) raise whenever
their marker line is absent, and the optional-fact calibrator parser returns
the explicit absent value — a Python `None` return, not an exception — when
its marker is missing.  (The "exactly when" direction of the original claim
fails: with the marker present the mandatory parsers can still raise on a
malformed value token; see the counterexample.) -/
theorem C5_mandatory_optional_parsers :
    (∀ lines : List String,
      (∀ l ∈ lines, pyIn ("Mean amplitude correction factor") l = false) →
      parse_rain_results lines = none) ∧
    (∀ lines : List String,
      (∀ l ∈ lines, pyIn ("estimated noise") l = false) →
      parse_reweight_results lines = none) ∧
    (∀ lines : List String,
      (∀ l ∈ lines, pyIn ("with calibrator") l = false) →
      parse_calibrator lines = none) := by
  refine ⟨?_, ?_, ?_⟩
  · intro lines h
    induction lines with
    | nil => rfl
    | cons l ls ih =>
      have hl : ¬ pyIn ("Mean amplitude correction factor") l = true := by
        rw [h l (List.mem_cons_self l ls)]
        exact Bool.false_ne_true
      simp only [parse_rain_results, if_neg hl]
      exact ih (fun l' hl' => h l' (List.mem_cons_of_mem l hl'))
  · intro lines h
    induction lines with
    | nil => rfl
    | cons l ls ih =>
      have hl : ¬ pyIn ("estimated noise") l = true := by
        rw [h l (List.mem_cons_self l ls)]
        exact Bool.false_ne_true
      simp only [parse_reweight_results, if_neg hl]
      exact ih (fun l' hl' => h l' (List.mem_cons_of_mem l hl'))
  · intro lines h
    induction lines with
    | nil => rfl
    | cons l ls ih =>
      have hl : ¬ pyIn ("with calibrator") l = true := by
        rw [h l (List.mem_cons_self l ls)]
        exact Bool.false_ne_true
      simp only [parse_calibrator, if_neg hl]
      exact ih (fun l' hl' => h l' (List.mem_cons_of_mem l hl'))

/-- C5 counterexample: the claim's "raise exactly when the marker line is
absent" fails — a line consisting of the rain marker alone contains the
marker, yet the parser raises, because `float` rejects the last token
(`factor`). -/
theorem C5_counterexample :
    pyIn ("Mean amplitude correction factor")
        ("Mean amplitude correction factor") = true ∧
    parse_rain_results [("Mean amplitude correction factor")] = none := by
  decide

/-- C5 witness: concrete marker-free blocks for each of the three parsers. -/
theorem C5_witness :
    parse_rain_results ["no marker a"] = none ∧
    parse_reweight_results ["no marker b"] = none ∧
    parse_calibrator ["no marker c"] = none :=
  ⟨C5_mandatory_optional_parsers.1 ["no marker a"] (by decide),
   C5_mandatory_optional_parsers.2.1 ["no marker b"] (by decide),
   C5_mandatory_optional_parsers.2.2 ["no marker c"] (by decide)⟩

/-- C6: on the given tracking line the coordinate parser takes the
negative-declination branch (two-space separator) and returns the
right-ascension and declination pair, and on any block with no `Tracking`
line it raises. -/
theorem C6_parse_coords_spec :
    parse_coords [("Tracking    : 12 30 00  -45 00 00  J2000")] =
      some (("12 30 00"), ("-45 00 00")) ∧
    ∀ block : List String, (∀ l ∈ block, pyIn ("Tracking") l = false) →
      parse_coords block = none := by
  constructor
  · decide
  · intro block h
    induction block with
    | nil => rfl
    | cons l ls ih =>
      have hl : ¬ pyIn ("Tracking") l = true := by
        rw [h l (List.mem_cons_self l ls)]
        exact Bool.false_ne_true
      simp only [parse_coords, if_neg hl]
      exact ih (fun l' hl' => h l' (List.mem_cons_of_mem l hl'))

/-- C6 witness: a concrete block with no `Tracking` line makes the parser
raise. -/
theorem C6_witness : parse_coords ["no coordinates here"] = none :=
  C6_parse_coords_spec.2 ["no coordinates here"] (by decide)

/-- C1 counterexample: with representatives at 0 and 0.8 degrees and the
default 0.5-degree tolerance, a dataset at 0.4 degrees is within tolerance
of both representatives, and the assignment loop (which has no `break`)
appends it to both groups — not only to the first matching one. -/
theorem C1_counterexample :
    group_pointings_assign exSep ⟨5, 1⟩
        [(("f1"), (("A"), ("x"))), (("f2"), (("B"), ("x"))), (("f3"), (("C"), ("x")))] =
      [((("A"), ("x")), [("f1"), ("f3")]), ((("B"), ("x")), [("f2"), ("f3")])] ∧
    PyFloat.lt (exSep (("A"), ("x")) (("C"), ("x"))) ⟨5, 1⟩ = true ∧
    PyFloat.lt (exSep (("B"), ("x")) (("C"), ("x"))) ⟨5, 1⟩ = true := by
  decide

/-- C1 (amended): every representative whose separation from the dataset's
pointing is strictly below tolerance receives the dataset — the first match
does not stop the scan, so a dataset can join several groups. -/
theorem C1_every_match_receives (sep : Pointing → Pointing → PyFloat)
    (tol : PyFloat) (groups : List (Pointing × List String)) (f : String)
    (fp : Pointing) (g : Pointing × List String) (hg : g ∈ groups)
    (hsep : PyFloat.lt (sep g.1 fp) tol = true) :
    (g.1, g.2 ++ [f]) ∈ assign_file sep tol groups f fp := by
  unfold assign_file
  have hmatched : (groups.any (fun g => PyFloat.lt (sep g.1 fp) tol)) = true :=
    List.any_eq_true.mpr ⟨g, hg, hsep⟩
  rw [if_pos hmatched]
  have hmem := List.mem_map_of_mem
    (fun g : Pointing × List String =>
      if PyFloat.lt (sep g.1 fp) tol then (g.1, g.2 ++ [f]) else g) hg
  simpa [hsep] using hmem

/-- C1 witness: the second representative also matches and receives the
dataset. -/
theorem C1_witness :
    ((("B"), ("x")), [("f2"), ("f3")]) ∈
      assign_file exSep ⟨5, 1⟩
        [((("A"), ("x")), [("f1")]), ((("B"), ("x")), [("f2")])]
        ("f3") (("C"), ("x")) :=
  C1_every_match_receives exSep ⟨5, 1⟩
    [((("A"), ("x")), [("f1")]), ((("B"), ("x")), [("f2")])]
    ("f3") (("C"), ("x")) ((("B"), ("x")), [("f2")]) (by decide) (by decide)

/-- The fixed-shape slice of the file listing: with a 2-line header and a
4-line footer, `lines[2:-4]` is exactly the data region, for any number of
data lines. -/
theorem pySlice2Neg4_sandwich {α : Type} (hdr data ftr : List α)
    (h2 : hdr.length = 2) (h4 : ftr.length = 4) :
    pySlice2Neg4 (hdr ++ data ++ ftr) = data := by
  unfold pySlice2Neg4
  have hlen : (hdr ++ data ++ ftr).length - 4 = (hdr ++ data).length := by
    simp only [List.length_append, h2, h4]
    omega
  rw [hlen, List.take_left, ← h2, List.drop_left]

/-- Keys accumulated by the `list files` loop: fresh, pairwise-distinct
first columns are appended in order. -/
theorem files_fold_keys (data : List String) (init : Registry)
    (hnodup : (data.map (fun l => (extract_cols l).headD "")).Nodup)
    (hfresh : ∀ l ∈ data, assocLookup ((extract_cols l).headD "") init = none) :
    (data.foldl files_step init).map Prod.fst =
      init.map Prod.fst ++ data.map (fun l => (extract_cols l).headD "") := by
  induction data generalizing init with
  | nil => simp
  | cons l ds ih =>
    simp only [List.foldl_cons, List.map_cons]
    have hl : assocLookup ((extract_cols l).headD "") init = none :=
      hfresh l (List.mem_cons_self l ds)
    have hstep : files_step init l =
        init ++ [(((extract_cols l).headD ""), ({} : FileRecord))] := by
      simp only [files_step, hl]
    rw [hstep]
    simp only [List.map_cons, List.nodup_cons] at hnodup
    have hfresh' : ∀ l' ∈ ds,
        assocLookup ((extract_cols l').headD "")
          (init ++ [(((extract_cols l).headD ""), ({} : FileRecord))]) = none := by
      intro l' hl'
      rw [assocLookup_eq_none_iff]
      simp only [List.map_append, List.map_cons, List.map_nil]
      rw [List.mem_append]
      rintro (hc | hc)
      · exact (assocLookup_eq_none_iff _ init).mp (hfresh l' (List.mem_cons_of_mem l hl')) hc
      · rcases List.mem_singleton.mp hc with he
        exact hnodup.1 (he ▸ List.mem_map_of_mem (fun l => (extract_cols l).headD "") hl')
    rw [ih _ hnodup.2 hfresh']
    simp

/-- C7: for a file-list block of 2 header lines, N data lines whose first
whitespace-delimited tokens are the (pairwise-distinct) dataset identifiers,
and 4 footer lines, the file-list phase registers exactly those N
identifiers, for every N; and the comment phase skips only the two header
lines, with no footer skip. -/
theorem C7_file_list_shape :
    (∀ (hdr data ftr : List String), hdr.length = 2 → ftr.length = 4 →
      (∀ l ∈ data, (extract_cols l).headD "" = (pyWsSplit l).headD "") →
      ((data.map (fun l => (pyWsSplit l).headD "")).Nodup) →
      (update_files_list_phase (hdr ++ data ++ ftr) []).map Prod.fst =
        data.map (fun l => (pyWsSplit l).headD "")) ∧
    (∀ (hdr rest : List String) (files : Registry), hdr.length = 2 →
      update_files_comment_phase (hdr ++ rest) files =
        rest.foldl comment_step files) := by
  constructor
  · intro hdr data ftr h2 h4 htok hnodup
    unfold update_files_list_phase
    rw [pySlice2Neg4_sandwich hdr data ftr h2 h4]
    have hmap : data.map (fun l => (extract_cols l).headD "") =
        data.map (fun l => (pyWsSplit l).headD "") :=
      List.map_congr_left htok
    rw [files_fold_keys data [] (by rw [hmap]; exact hnodup) (fun l hl => rfl)]
    simpa using hmap
  · intro hdr rest files h2
    unfold update_files_comment_phase
    rw [← h2, List.drop_left]

/-- C7 witness: a concrete 2+2+4 block registers exactly the two
identifiers. -/
theorem C7_witness :
    (update_files_list_phase
        ["hdr one", "hdr two", "aaa-1 some comment", "bbb-2", "", "", "", "total obs time"]
        []).map Prod.fst =
      ["aaa-1 some comment", "bbb-2"].map (fun l => (pyWsSplit l).headD "") :=
  C7_file_list_shape.1 ["hdr one", "hdr two"] ["aaa-1 some comment", "bbb-2"]
    ["", "", "", "total obs time"] rfl rfl (by decide) (by decide)

/-- The dispatcher never creates or deletes registry entries: whatever the
routing outcome, the key set is unchanged. -/
theorem parse_command_output_keys (command : String) (outputLines : List String)
    (files : Registry) (active : Option String) :
    ((parse_command_output command outputLines files active).1).map Prod.fst =
      files.map Prod.fst := by
  cases active with
  | none => rfl
  | some af =>
    cases h : assocLookup af files with
    | none => simp only [parse_command_output, h]
    | some rec =>
      rcases parse_command_output_spec command outputLines files af rec h with
        hc | ⟨r2, heq, -⟩
      · rw [hc]
      · rw [heq]
        exact map_fst_assocSet_of_lookup _ h

/-- C9: inspecting an unknown observation raises `KeyError` and creates no
registry entry; neither `get_obs_details` nor the command dispatcher ever
adds a key, so entries are created only by the file-discovery operation. -/
theorem C9_registry_creation :
    (∀ (filename : String) (responseLines : List String) (files : Registry),
      assocLookup filename files = none →
      get_obs_details filename responseLines files = (files, some Err.keyError)) ∧
    (∀ (filename : String) (responseLines : List String) (files : Registry),
      ((get_obs_details filename responseLines files).1).map Prod.fst =
        files.map Prod.fst) ∧
    (∀ (command : String) (outputLines : List String) (files : Registry)
      (active : Option String),
      ((parse_command_output command outputLines files active).1).map Prod.fst =
        files.map Prod.fst) := by
  refine ⟨?_, ?_, parse_command_output_keys⟩
  · intro filename responseLines files h
    simp only [get_obs_details, h]
  · intro filename responseLines files
    cases h : assocLookup filename files with
    | none => simp only [get_obs_details, h]
    | some info =>
      simp only [get_obs_details, h]
      cases parse_coords (responseLines.drop 2) with
      | none => rfl
      | some pt => exact map_fst_assocSet_of_lookup _ h

/-- C9 witness: a lookup of an unregistered filename fails with `KeyError`
and returns the registry unchanged. -/
theorem C9_witness :
    get_obs_details ("zzz") (["r1"]) [] = ([], some Err.keyError) :=
  C9_registry_creation.1 ("zzz") (["r1"]) [] rfl

/-! ### Group-naming lemmas -/

theorem stringExt {a b : String} (h : a.toList = b.toList) : a = b := by
  cases a
  cases b
  exact congrArg String.mk h

theorem strMin_toList (a b : String) :
    (strMin a b).toList = min a.toList b.toList := by
  unfold strMin
  rw [apply_ite String.toList, min_def]
  by_cases h : b.toList < a.toList
  · rw [if_pos h, if_neg (not_le.mpr h)]
  · rw [if_neg h, if_pos (le_of_not_lt h)]

theorem strMin_assoc (a b c : String) :
    strMin (strMin a b) c = strMin a (strMin b c) := by
  apply stringExt
  rw [strMin_toList, strMin_toList, strMin_toList, strMin_toList, min_assoc]

theorem foldl_strMin_comm (l : List String) (a b : String) :
    l.foldl strMin (strMin a b) = strMin a (l.foldl strMin b) := by
  induction l generalizing b with
  | nil => rfl
  | cons c cs ih =>
    rw [List.foldl_cons, List.foldl_cons, strMin_assoc, ih]

theorem insertSorted_ne_nil (x : String) (l : List String) :
    insertSorted x l ≠ [] := by
  cases l with
  | nil => simp [insertSorted]
  | cons y ys =>
    unfold insertSorted
    by_cases h : y.toList < x.toList
    · rw [if_pos h]
      simp
    · rw [if_neg h]
      simp

theorem insertSorted_headD (x y : String) (ys : List String) (d : String) :
    (insertSorted x (y :: ys)).headD d = strMin x y := by
  unfold insertSorted strMin
  by_cases h : y.toList < x.toList
  · rw [if_pos h, if_pos h]
    rfl
  · rw [if_neg h, if_neg h]
    rfl

theorem pySorted_ne_nil (l : List String) (h : l ≠ []) : pySorted l ≠ [] := by
  cases l with
  | nil => exact absurd rfl h
  | cons x xs => exact insertSorted_ne_nil x (pySorted xs)

/-- The head of the insertion sort is the lexicographic minimum. -/
theorem pySorted_headD_min (l : List String) (hl : l ≠ []) :
    (pySorted l).headD "" = listMinStr l := by
  induction l with
  | nil => exact absurd rfl hl
  | cons x xs ih =>
    cases xs with
    | nil => rfl
    | cons y ys =>
      show (insertSorted x (pySorted (y :: ys))).headD "" = listMinStr (x :: y :: ys)
      cases hs : pySorted (y :: ys) with
      | nil => exact absurd hs (pySorted_ne_nil _ (by simp))
      | cons h0 t0 =>
        rw [insertSorted_headD]
        have ih' := ih (by simp)
        rw [hs] at ih'
        simp only [List.headD_cons] at ih'
        rw [ih']
        show strMin x ((y :: ys).tail.foldl strMin (y :: ys).head!) =
          (y :: ys).foldl strMin x
        simp only [List.tail_cons, List.head!_cons]
        rw [List.foldl_cons]
        exact (foldl_strMin_comm ys x y).symm

theorem splitOnPred_ne_nil (p : Char → Bool) (cs : List Char) :
    splitOnPred p cs ≠ [] := by
  induction cs with
  | nil => simp [splitOnPred]
  | cons x xs ih =>
    unfold splitOnPred
    by_cases h : p x
    · rw [if_pos h]
      simp
    · rw [if_neg h]
      cases hs : splitOnPred p xs with
      | nil => exact absurd hs ih
      | cons a t => simp

/-- The first field of a character split is the longest separator-free
prefix. -/
theorem splitOnPred_headD (p : Char → Bool) (cs : List Char) :
    (splitOnPred p cs).headD [] = cs.takeWhile (fun c => !p c) := by
  induction cs with
  | nil => rfl
  | cons x xs ih =>
    unfold splitOnPred
    by_cases h : p x
    · rw [if_pos h]
      simp [List.takeWhile_cons, h]
    · have hb : p x = false := Bool.eq_false_iff.mpr h
      rw [if_neg h]
      cases hs : splitOnPred p xs with
      | nil => exact absurd hs (splitOnPred_ne_nil p xs)
      | cons a t =>
        rw [hs] at ih
        simp only [List.headD_cons] at ih
        simp [List.takeWhile_cons, hb, ih]

theorem pySplitChar_headD (c : Char) (s : String) :
    (pySplitChar c s).headD "" = ⟨s.toList.takeWhile (fun x => !(x == c))⟩ := by
  unfold pySplitChar splitOnCharList
  cases hs : splitOnPred (fun x => x == c) s.toList with
  | nil => exact absurd hs (splitOnPred_ne_nil _ _)
  | cons a t =>
    have h := splitOnPred_headD (fun x => x == c) s.toList
    rw [hs] at h
    simp only [List.headD_cons] at h
    simp only [List.map_cons, List.headD_cons]
    rw [h]

/-- The naming step of `group_pointings` computes spec-side truncation of
the lexicographically first member. -/
theorem group_name_refines (fs : List String) (h : fs ≠ []) :
    group_name_of fs = truncAtDash (listMinStr fs) := by
  unfold group_name_of truncAtDash
  rw [pySplitChar_headD, pySorted_headD_min fs h]

/-- Last write wins in `named_groups`: a name maps to the entry of the last
group (in iteration order) whose computed name is that name. -/
theorem build_named_groups_lookup (gps : List (Pointing × List String))
    (name : String) :
    assocLookup name (build_named_groups gps) =
      ((gps.filter (fun pg => group_name_of pg.2 == name)).getLast?).map
        (fun pg => GroupInfo.mk pg.2 pg.1) := by
  induction gps using List.reverseRecOn with
  | nil => rfl
  | append_singleton gps pg ih =>
    unfold build_named_groups at ih ⊢
    rw [List.foldl_append, List.foldl_cons, List.foldl_nil, List.filter_append]
    by_cases h : group_name_of pg.2 = name
    · subst h
      rw [assocLookup_assocSet_self]
      simp [List.filter_cons, List.getLast?_concat]
    · have hne : name ≠ group_name_of pg.2 := fun e => h e.symm
      rw [assocLookup_assocSet_ne _ _ hne, ih]
      have hpred : (group_name_of pg.2 == name) = false := by
        simp [h]
      simp [List.filter_cons, hpred]

/-- Files not in a group's member list keep their registry entry through the
group's write-back loop. -/
theorem write_group_files_notmem (gname f : String) (fs : List String) :
    ∀ files : Registry, ¬ f ∈ fs →
      assocLookup f (write_group_files gname fs files).1 = assocLookup f files := by
  induction fs with
  | nil =>
    intro files _
    rfl
  | cons f0 rest ih =>
    intro files hf
    have hne : f ≠ f0 := fun e => hf (e ▸ List.mem_cons_self f0 rest)
    have hfr : ¬ f ∈ rest := fun hr => hf (List.mem_cons_of_mem f0 hr)
    unfold write_group_files
    cases h0 : assocLookup f0 files with
    | none => rfl
    | some rec0 =>
      rw [ih _ hfr]
      exact assocLookup_assocSet_ne _ _ hne

/-- After a group's write-back loop succeeds, every member of the list (and
every file that already carried the group name) maps to a record whose
`group_name` is that group's name. -/
theorem write_group_files_mem (gname f : String) (fs : List String) :
    ∀ files files2 : Registry,
      write_group_files gname fs files = (files2, none) →
      (f ∈ fs ∨ ∃ rec, assocLookup f files = some rec ∧
        rec.group_name = some gname) →
      ∃ rec2, assocLookup f files2 = some rec2 ∧
        rec2.group_name = some gname := by
  induction fs with
  | nil =>
    intro files files2 hrun hpre
    rcases hpre with h | ⟨rec, h1, h2⟩
    · cases h
    · obtain rfl : files = files2 := congrArg Prod.fst hrun
      exact ⟨rec, h1, h2⟩
  | cons f0 rest ih =>
    intro files files2 hrun hpre
    unfold write_group_files at hrun
    cases h0 : assocLookup f0 files with
    | none =>
      rw [h0] at hrun
      exact absurd (congrArg Prod.snd hrun) (by simp)
    | some rec0 =>
      rw [h0] at hrun
      apply ih _ _ hrun
      by_cases hf0 : f = f0
      · by_cases hfr : f ∈ rest
        · exact Or.inl hfr
        · refine Or.inr ⟨{ rec0 with group_name := some gname }, ?_, rfl⟩
          rw [hf0]
          exact assocLookup_assocSet_self _ _ _
      · rcases hpre with hm | ⟨rec, h1, h2⟩
        · rcases List.mem_cons.mp hm with he | hr
          · exact absurd he hf0
          · exact Or.inl hr
        · refine Or.inr ⟨rec, ?_, h2⟩
          rw [assocLookup_assocSet_ne _ _ hf0]
          exact h1

/-- A file already carrying `group_name = name` keeps it through the
remaining groups, provided every remaining group containing the file is
named `name`. -/
theorem write_group_names_preserve (name f : String)
    (ng : List (String × GroupInfo)) :
    ∀ files res : Registry,
      write_group_names ng files = (res, none) →
      (∀ e ∈ ng, f ∈ e.2.files → e.1 = name) →
      (∃ rec, assocLookup f files = some rec ∧ rec.group_name = some name) →
      ∃ rec2, assocLookup f res = some rec2 ∧ rec2.group_name = some name := by
  induction ng with
  | nil =>
    intro files res hrun hall hpre
    obtain rfl : files = res := congrArg Prod.fst hrun
    exact hpre
  | cons g rest ih =>
    intro files res hrun hall hpre
    unfold write_group_names at hrun
    cases hw : write_group_files g.1 g.2.files files with
    | mk files2 e0 =>
      rw [hw] at hrun
      cases e0 with
      | some e => exact absurd (congrArg Prod.snd hrun) (by simp)
      | none =>
        apply ih files2 res hrun
          (fun e he hfe => hall e (List.mem_cons_of_mem g he) hfe)
        by_cases hfg : f ∈ g.2.files
        · have hg1 : g.1 = name := hall g (List.mem_cons_self g rest) hfg
          have hpost := write_group_files_mem g.1 f g.2.files files files2 hw
            (Or.inl hfg)
          rw [hg1] at hpost
          exact hpost
        · have hlook := write_group_files_notmem g.1 f g.2.files files hfg
          rw [hw] at hlook
          dsimp only at hlook
          rw [hlook]
          exact hpre

/-- Main write-back property: when the write-back succeeds, a file belonging
to a named group — and to no differently-named group — ends up with that
group's name in its record. -/
theorem write_group_names_assigns (ng : List (String × GroupInfo)) :
    ∀ (files res : Registry) (f name : String) (gi : GroupInfo),
      (name, gi) ∈ ng → f ∈ gi.files →
      (∀ e ∈ ng, f ∈ e.2.files → e.1 = name) →
      write_group_names ng files = (res, none) →
      ∃ rec2, assocLookup f res = some rec2 ∧
        rec2.group_name = some name := by
  induction ng with
  | nil =>
    intro files res f name gi hmem _ _ _
    cases hmem
  | cons g rest ih =>
    intro files res f name gi hmem hf huniq hrun
    unfold write_group_names at hrun
    cases hw : write_group_files g.1 g.2.files files with
    | mk files2 e0 =>
      rw [hw] at hrun
      cases e0 with
      | some e => exact absurd (congrArg Prod.snd hrun) (by simp)
      | none =>
        by_cases hfg : f ∈ g.2.files
        · have hg1 : g.1 = name := huniq g (List.mem_cons_self g rest) hfg
          have hpost := write_group_files_mem g.1 f g.2.files files files2 hw
            (Or.inl hfg)
          rw [hg1] at hpost
          exact write_group_names_preserve name f rest files2 res hrun
            (fun e he hfe => huniq e (List.mem_cons_of_mem g he) hfe) hpost
        · have hmem2 : (name, gi) ∈ rest := by
            rcases List.mem_cons.mp hmem with he | hr
            · exfalso
              apply hfg
              rw [← he]
              exact hf
            · exact hr
          exact ih files2 res f name gi hmem2 hf
            (fun e he hfe => huniq e (List.mem_cons_of_mem g he) hfe) hrun

/-- C8: (1) a group's public name is the lexicographically first member
identifier truncated at the first minus character; (2) name collisions are
resolved by last write wins — looking up a name in `named_groups` yields the
entry of the last group in iteration order producing that name; (3) when the
write-back succeeds, the name of a group is written onto the `group_name`
field of every member dataset record (stated for files whose containing
groups all carry that one name, which covers every file of the collision-free
claim scenario). -/
theorem C8_group_naming :
    (∀ fs : List String, fs ≠ [] →
      group_name_of fs = truncAtDash (listMinStr fs)) ∧
    (∀ (gps : List (Pointing × List String)) (name : String),
      assocLookup name (build_named_groups gps) =
        ((gps.filter (fun pg => group_name_of pg.2 == name)).getLast?).map
          (fun pg => GroupInfo.mk pg.2 pg.1)) ∧
    (∀ (ng : List (String × GroupInfo)) (files res : Registry)
      (f name : String) (gi : GroupInfo),
      (name, gi) ∈ ng → f ∈ gi.files →
      (∀ e ∈ ng, f ∈ e.2.files → e.1 = name) →
      write_group_names ng files = (res, none) →
      ∃ rec2, assocLookup f res = some rec2 ∧
        rec2.group_name = some name) :=
  ⟨group_name_refines, build_named_groups_lookup,
    fun ng files res f name gi hmem hf huniq hrun =>
      write_group_names_assigns ng files res f name gi hmem hf huniq hrun⟩

/-- C8 witness: a two-member group is named `alpha` (first sorted member
`alpha-1`, truncated at the dash), the lookup of `alpha` returns that
group's entry, and the write-back stamps `alpha` onto the member
`bravo-2`. -/
theorem C8_witness :
    group_name_of ["bravo-2", "alpha-1"] =
      truncAtDash (listMinStr ["bravo-2", "alpha-1"]) ∧
    assocLookup ("alpha")
        (build_named_groups [((("A"), ("x")), ["bravo-2", "alpha-1"])]) =
      ((([((("A"), ("x")), ["bravo-2", "alpha-1"])].filter
          (fun pg => group_name_of pg.2 == ("alpha"))).getLast?).map
        (fun pg => GroupInfo.mk pg.2 pg.1)) ∧
    ∃ rec2,
      assocLookup ("bravo-2")
        [(("alpha-1"), ({ group_name := some ("alpha") } : FileRecord)),
         (("bravo-2"), ({ group_name := some ("alpha") } : FileRecord))] =
        some rec2 ∧
      rec2.group_name = some ("alpha") :=
  ⟨C8_group_naming.1 ["bravo-2", "alpha-1"] (by decide),
   C8_group_naming.2.1 [((("A"), ("x")), ["bravo-2", "alpha-1"])] ("alpha"),
   C8_group_naming.2.2
     [(("alpha"), ⟨["bravo-2", "alpha-1"], (("A"), ("x"))⟩)]
     [(("alpha-1"), {}), (("bravo-2"), {})]
     [(("alpha-1"), ({ group_name := some ("alpha") } : FileRecord)),
      (("bravo-2"), ({ group_name := some ("alpha") } : FileRecord))]
     ("bravo-2") ("alpha") ⟨["bravo-2", "alpha-1"], (("A"), ("x"))⟩
     (by decide) (by decide) (by decide) (by decide)⟩
